import Mathlib

/-!
Verification development for the web-conference signaling subsystem.

Server side (src/server/index.js): the room registry (`rooms`, a Map from room
id to a Map from socket id to participant records), the socket.io room
membership used for delivery, and the per-event handlers registered in
`io.on('connection', ...)`.

Client side (src/public/js/room.js): the per-remote-peer negotiation state kept
in `this.peers` and the socket/system event handlers that drive it.

JS `Map` objects are embedded as association lists with the same observable
behaviour: `set` updates in place keeping insertion order or appends a fresh
key at the end, `get` returns the first hit, `delete` removes the key.
JS `undefined` string fields are embedded as `Option String`.
-/

namespace WebConf

/-- JS `Map.prototype.set`: overwrite in place, or append a new key at the end. -/
def mapSet {α β : Type} [DecidableEq α] : List (α × β) → α → β → List (α × β)
  | [], k, v => [(k, v)]
  | (k', v') :: rest, k, v =>
      if k' = k then (k, v) :: rest else (k', v') :: mapSet rest k v

/-- JS `Map.prototype.get`: first entry with the key, if any. -/
def mapGet {α β : Type} [DecidableEq α] : List (α × β) → α → Option β
  | [], _ => none
  | (k', v') :: rest, k => if k' = k then some v' else mapGet rest k

/-- JS `Map.prototype.delete`: remove the entry with the key. -/
def mapDelete {α β : Type} [DecidableEq α] : List (α × β) → α → List (α × β)
  | [], _ => []
  | (k', v') :: rest, k => if k' = k then rest else (k', v') :: mapDelete rest k

/-- The participant record stored by the join-room handler:
`room.set(socket.id, { username, id: socket.id })`.  The username field of the
inbound payload is not validated and may be absent (`undefined`). -/
structure Participant where
  username : Option String
  id : String
deriving DecidableEq

/-- Per-connection data: the `socket.roomId` / `socket.username` fields the
server stores on the socket object, plus the socket.io rooms the socket has
joined via `socket.join` (its own id is implicitly also a room, the personal
room socket.io uses for directed delivery). -/
structure Sock where
  roomId : Option String := none
  username : Option String := none
  joined : List String := []
deriving DecidableEq

/-- Server state: the connected sockets (keyed by socket id) and the `rooms`
registry Map (room id to Map from socket id to participant record). -/
structure ServerState where
  sockets : List (String × Sock)
  rooms : List (String × List (String × Participant))
deriving DecidableEq

def initialServer : ServerState := ⟨[], []⟩

/-- Messages the server emits to clients. SDP blobs, ICE candidates and
timestamps are opaque strings. -/
inductive ServerMsg where
  | userJoined (userId : String) (username : Option String)
  | existingUsers (users : List Participant)
  | userLeft (userId : String) (username : Option String)
  | offerMsg (fromId : String) (username : Option String) (offer : String)
  | answerMsg (fromId : String) (answer : String)
  | iceMsg (fromId : String) (candidate : String)
  | chatMsg (userId : String) (username : Option String) (message : String) (timestamp : String)
  | toggleAudioMsg (userId : String) (enabled : Bool)
  | toggleVideoMsg (userId : String) (enabled : Bool)
deriving DecidableEq

/-- The sockets currently in socket.io room `x`: a socket is in its personal
room (named by its own id) and in every room it joined via `socket.join`. -/
def socketsInRoom (st : ServerState) (x : String) : List String :=
  (st.sockets.filter (fun p => p.1 = x || p.2.joined.contains x)).map Prod.fst

/-- `io.to(x).emit(m)`: deliver `m` to every socket in room `x`. -/
def emitToRoom (st : ServerState) (x : String) (m : ServerMsg) :
    List (String × ServerMsg) :=
  (socketsInRoom st x).map (fun sid => (sid, m))

/-- `socket.to(x).emit(m)`: deliver `m` to every socket in room `x` except the
emitting socket itself. -/
def emitToRoomExcept (st : ServerState) (x sender : String) (m : ServerMsg) :
    List (String × ServerMsg) :=
  ((socketsInRoom st x).filter (fun sid => sid ≠ sender)).map (fun sid => (sid, m))

/-- The `socket.username` field of a connected socket (absent before join). -/
def sockUsername (st : ServerState) (sid : String) : Option String :=
  ((mapGet st.sockets sid).getD {}).username

/-- A new connection: socket.io registers the socket (personal room only). -/
def connectSock (st : ServerState) (sid : String) : ServerState :=
  if (mapGet st.sockets sid).isSome then st
  else { st with sockets := st.sockets ++ [(sid, {})] }

/-- The `join-room` handler (src/server/index.js lines 128-158):
`socket.join(roomId)`; create the room Map if absent; `room.set(socket.id,
{ username, id })`; `socket.to(roomId).emit('user-joined', ...)`; send the
joiner the list of other participants in insertion order; store `roomId` and
`username` on the socket.  No field is validated. -/
def handleJoinRoom (st : ServerState) (sid : String) (roomId : String)
    (username : Option String) : ServerState × List (String × ServerMsg) :=
  let sock := (mapGet st.sockets sid).getD {}
  let sock1 := { sock with
    joined := if sock.joined.contains roomId then sock.joined else sock.joined ++ [roomId] }
  let st1 : ServerState := { st with sockets := mapSet st.sockets sid sock1 }
  let room0 := (mapGet st1.rooms roomId).getD []
  let room1 := mapSet room0 sid { username := username, id := sid }
  let st2 : ServerState := { st1 with rooms := mapSet st1.rooms roomId room1 }
  let notifyOthers := emitToRoomExcept st2 roomId sid (.userJoined sid username)
  let existing := (room1.filter (fun p => p.1 ≠ sid)).map Prod.snd
  let sock2 := { sock1 with roomId := some roomId, username := username }
  let st3 : ServerState := { st2 with sockets := mapSet st2.sockets sid sock2 }
  (st3, notifyOthers ++ [(sid, .existingUsers existing)])

/-- The `offer` handler: `socket.to(to).emit('offer', { from, username, offer })`. -/
def handleOffer (st : ServerState) (sid toId offer : String) :
    ServerState × List (String × ServerMsg) :=
  (st, emitToRoomExcept st toId sid (.offerMsg sid (sockUsername st sid) offer))

/-- The `answer` handler: `socket.to(to).emit('answer', { from, answer })`. -/
def handleAnswer (st : ServerState) (sid toId answer : String) :
    ServerState × List (String × ServerMsg) :=
  (st, emitToRoomExcept st toId sid (.answerMsg sid answer))

/-- The `ice-candidate` handler: `socket.to(to).emit('ice-candidate', ...)`. -/
def handleIceCandidate (st : ServerState) (sid toId candidate : String) :
    ServerState × List (String × ServerMsg) :=
  (st, emitToRoomExcept st toId sid (.iceMsg sid candidate))

/-- The `chat-message` handler: `io.to(roomId).emit('chat-message', { userId,
username, message, timestamp })`.  The timestamp argument stands for the
server-side `new Date().toISOString()` reading. -/
def handleChatMessage (st : ServerState) (sid roomId message timestamp : String) :
    ServerState × List (String × ServerMsg) :=
  (st, emitToRoom st roomId (.chatMsg sid (sockUsername st sid) message timestamp))

/-- The `toggle-audio` handler: `socket.to(roomId).emit('user-toggle-audio', ...)`. -/
def handleToggleAudio (st : ServerState) (sid roomId : String) (enabled : Bool) :
    ServerState × List (String × ServerMsg) :=
  (st, emitToRoomExcept st roomId sid (.toggleAudioMsg sid enabled))

/-- The `toggle-video` handler: `socket.to(roomId).emit('user-toggle-video', ...)`. -/
def handleToggleVideo (st : ServerState) (sid roomId : String) (enabled : Bool) :
    ServerState × List (String × ServerMsg) :=
  (st, emitToRoomExcept st roomId sid (.toggleVideoMsg sid enabled))

/-- The `disconnect` handler (src/server/index.js lines 209-229): if the socket
had stored a `roomId`, delete it from that room's Map, delete the room when it
became empty, and `socket.to(roomId).emit('user-left', ...)`; otherwise nothing
is emitted and the registry is untouched.  The socket itself is always removed
from the connected set (socket.io leaves all rooms on disconnect). -/
def handleDisconnect (st : ServerState) (sid : String) :
    ServerState × List (String × ServerMsg) :=
  let sock := (mapGet st.sockets sid).getD {}
  match sock.roomId with
  | none => ({ st with sockets := mapDelete st.sockets sid }, [])
  | some rid =>
    let rooms1 :=
      match mapGet st.rooms rid with
      | none => st.rooms
      | some room =>
        let room1 := mapDelete room sid
        if room1.isEmpty then mapDelete st.rooms rid else mapSet st.rooms rid room1
    let st1 : ServerState := { st with rooms := rooms1 }
    let out := emitToRoomExcept st1 rid sid (.userLeft sid sock.username)
    ({ st1 with sockets := mapDelete st1.sockets sid }, out)

/-- The inbound events a connection can produce, in the order the server
processes them. -/
inductive Ev where
  | connect (sid : String)
  | joinRoom (sid roomId : String) (username : Option String)
  | offerEv (sid toId offer : String)
  | answerEv (sid toId answer : String)
  | iceEv (sid toId candidate : String)
  | chatEv (sid roomId message timestamp : String)
  | toggleAudioEv (sid roomId : String) (enabled : Bool)
  | toggleVideoEv (sid roomId : String) (enabled : Bool)
  | disconnectEv (sid : String)
deriving DecidableEq

/-- One server step: dispatch an event to its handler. -/
def step (st : ServerState) : Ev → ServerState × List (String × ServerMsg)
  | .connect sid => (connectSock st sid, [])
  | .joinRoom sid r u => handleJoinRoom st sid r u
  | .offerEv sid toId offer => handleOffer st sid toId offer
  | .answerEv sid toId answer => handleAnswer st sid toId answer
  | .iceEv sid toId cand => handleIceCandidate st sid toId cand
  | .chatEv sid r m ts => handleChatMessage st sid r m ts
  | .toggleAudioEv sid r en => handleToggleAudio st sid r en
  | .toggleVideoEv sid r en => handleToggleVideo st sid r en
  | .disconnectEv sid => handleDisconnect st sid

/-- Run a sequence of events from a state. -/
def run (st : ServerState) : List Ev → ServerState
  | [] => st
  | e :: rest => run (step st e).1 rest

/-- Run a sequence of events collecting every emitted message in order. -/
def runTrace (st : ServerState) : List Ev → ServerState × List (String × ServerMsg)
  | [] => (st, [])
  | e :: rest =>
      let r := step st e
      let r' := runTrace r.1 rest
      (r'.1, r.2 ++ r'.2)

/-- Socket ids recorded in a room's registry Map. -/
def memberIds (st : ServerState) (rid : String) : List String :=
  ((mapGet st.rooms rid).getD []).map Prod.fst

/-- Structural well-formedness of the server state: socket keys and room keys
are duplicate-free and every registered room is a non-empty Map with
duplicate-free keys. -/
def goodState (st : ServerState) : Prop :=
  (st.sockets.map Prod.fst).Nodup ∧ (st.rooms.map Prod.fst).Nodup ∧
    ∀ e ∈ st.rooms, e.2 ≠ [] ∧ (e.2.map Prod.fst).Nodup

instance (st : ServerState) : Decidable (goodState st) := by
  unfold goodState; infer_instance

/-- `e` is a join event of socket `s`. -/
def isJoinOf (s : String) : Ev → Bool
  | .joinRoom s' _ _ => s' = s
  | _ => false

/-- `e` is the disconnect event of socket `s`. -/
def isDiscOf (s : String) : Ev → Bool
  | .disconnectEv s' => s' = s
  | _ => false

/-- Socket `s` has a join event for room `r` in the history. -/
def joinedRoomIn (evs : List Ev) (s r : String) : Bool :=
  evs.any (fun e =>
    match e with
    | .joinRoom s' r' _ => s' = s && r' = r
    | _ => false)

/-- Socket `s` has a disconnect event in the history. -/
def disconnectedIn (evs : List Ev) (s : String) : Bool :=
  evs.any (isDiscOf s)

/-- Two events are join-compatible when they do not witness one socket joining
two different rooms. -/
def joinCompat : Ev → Ev → Bool
  | .joinRoom s r _, .joinRoom s' r' _ => s ≠ s' || r = r'
  | _, _ => true

/-- Every socket's join events all target one room. -/
def oneRoomPerSock (evs : List Ev) : Prop :=
  ∀ e ∈ evs, ∀ e' ∈ evs, joinCompat e e' = true

instance (evs : List Ev) : Decidable (oneRoomPerSock evs) := by
  unfold oneRoomPerSock; infer_instance

/-- No socket has a join event after its disconnect event (socket.io closes the
connection at disconnect, so its handlers can no longer fire). -/
def noJoinAfterDisc : List Ev → Bool
  | [] => true
  | .disconnectEv s :: rest => rest.all (fun e => !(isJoinOf s e)) && noJoinAfterDisc rest
  | _ :: rest => noJoinAfterDisc rest

/-! Client model (src/public/js/room.js).  Media tracks carry a kind and a
label identifying their source; SDP blobs generated by `createOffer` /
`createAnswer` are opaque and embedded as fixed tokens. -/

inductive TrackKind where
  | audio
  | video
deriving DecidableEq

structure Track where
  kind : TrackKind
  label : String
deriving DecidableEq

/-- One entry of `this.peers`: the RTCPeerConnection (local/remote description
state, successfully added ICE candidates in order, outgoing senders, connection
state) together with the stored username and the role flag
`createPeerConnection` was called with. -/
structure PeerConn where
  username : Option String
  initiator : Bool
  localDesc : Option String
  remoteDesc : Option String
  applied : List String
  senders : List Track
  connectionState : String
deriving DecidableEq

/-- Client-local state: the peers Map, the local media tracks, the screen
capture track when sharing, and the sharing flag. -/
structure ClientState where
  peers : List (String × PeerConn)
  localTracks : List Track
  screenTrack : Option Track
  isScreenSharing : Bool
deriving DecidableEq

/-- Messages the client emits to the server over the socket. -/
inductive ClientMsg where
  | sendOffer (toId : String) (offer : String)
  | sendAnswer (toId : String) (answer : String)
  | sendIce (toId : String) (candidate : String)
deriving DecidableEq

/-- Opaque token standing for a browser-generated offer SDP. -/
def mkOffer : String := "offer-sdp"

/-- Opaque token standing for a browser-generated answer SDP. -/
def mkAnswer : String := "answer-sdp"

/-- `createPeerConnection(userId, username, initiator)` (room.js lines
405-450): build an RTCPeerConnection, add every local track, store the peer in
the Map; when called as initiator, `createAndSendOffer` sets the local
description and emits the offer to `userId`. -/
def createPeerConnection (st : ClientState) (userId : String)
    (username : Option String) (initiator : Bool) : ClientState × List ClientMsg :=
  let conn : PeerConn :=
    { username := username, initiator := initiator, localDesc := none,
      remoteDesc := none, applied := [], senders := st.localTracks,
      connectionState := "new" }
  if initiator then
    let conn1 := { conn with localDesc := some mkOffer }
    ({ st with peers := mapSet st.peers userId conn1 },
      [ClientMsg.sendOffer userId mkOffer])
  else
    ({ st with peers := mapSet st.peers userId conn }, [])

/-- The `existing-users` handler: for each listed user in order create an
initiator connection (which sends that user an offer). -/
def onExistingUsers (st : ClientState) : List Participant → ClientState × List ClientMsg
  | [] => (st, [])
  | u :: rest =>
      let r := createPeerConnection st u.id u.username true
      let r' := onExistingUsers r.1 rest
      (r'.1, r.2 ++ r'.2)

/-- The `user-joined` handler: create a non-initiator connection for the new
arrival (no offer is sent; the arrival will send one). -/
def onUserJoined (st : ClientState) (userId : String) (username : Option String) :
    ClientState × List ClientMsg :=
  createPeerConnection st userId username false

/-- `RTCPeerConnection.setRemoteDescription`. -/
def setRemoteDescription (c : PeerConn) (sdp : String) : PeerConn :=
  { c with remoteDesc := some sdp }

/-- `RTCPeerConnection.addIceCandidate`: rejects (throws) when no remote
description has been set, otherwise records the candidate. -/
def addIceCandidate (c : PeerConn) (cand : String) : Option PeerConn :=
  if c.remoteDesc.isSome then some { c with applied := c.applied ++ [cand] }
  else none

/-- The `offer` handler (room.js lines 359-365): reuse or create a
non-initiator peer, apply the offer as remote description, create an answer,
set it as local description, and send it back. -/
def onOffer (st : ClientState) (fromId : String) (username : Option String)
    (offer : String) : ClientState × List ClientMsg :=
  let st0 :=
    match mapGet st.peers fromId with
    | some _ => st
    | none => (createPeerConnection st fromId username false).1
  match mapGet st0.peers fromId with
  | none => (st0, [])
  | some c =>
    let c1 := { setRemoteDescription c offer with localDesc := some mkAnswer }
    ({ st0 with peers := mapSet st0.peers fromId c1 },
      [ClientMsg.sendAnswer fromId mkAnswer])

/-- The `answer` handler (room.js lines 367-372): apply the answer as remote
description on the known peer, if any. -/
def onAnswer (st : ClientState) (fromId : String) (answer : String) : ClientState :=
  match mapGet st.peers fromId with
  | some c =>
      { st with peers := mapSet st.peers fromId (setRemoteDescription c answer) }
  | none => st

/-- The `ice-candidate` handler (room.js lines 374-383): if the peer is known
and a candidate is present, attempt `addIceCandidate` at once; a thrown error
is caught and only logged, so a failed candidate is dropped.  There is no
pending queue. -/
def onIceCandidateMsg (st : ClientState) (fromId : String) (cand : Option String) :
    ClientState :=
  match mapGet st.peers fromId, cand with
  | some c, some cd =>
    match addIceCandidate c cd with
    | some c1 => { st with peers := mapSet st.peers fromId c1 }
    | none => st
  | _, _ => st

/-- Index of the first video sender, mirroring
`getSenders().find(s => s.track && s.track.kind === 'video')`. -/
def firstVideoIdx : List Track → Option Nat
  | [] => none
  | s :: rest =>
      if s.kind = TrackKind.video then some 0
      else (firstVideoIdx rest).map (· + 1)

/-- `sender.replaceTrack(t)` on the first video sender, if any. -/
def replaceFirstVideoTrack : List Track → Track → List Track
  | [], _ => []
  | s :: rest, t =>
      if s.kind = TrackKind.video then t :: rest
      else s :: replaceFirstVideoTrack rest t

/-- The first video track of a stream (`getVideoTracks()[0]`). -/
def firstVideoTrack (ts : List Track) : Option Track :=
  ts.find? (fun t => t.kind = TrackKind.video)

/-- The body of the screen-share forEach loop over peers: find the first video
sender (`getSenders().find(s => s.track && s.track.kind === 'video')`) and
`sender.replaceTrack(t)` on it. -/
def swapVideo (t : Track) (c : PeerConn) : PeerConn :=
  { c with senders := replaceFirstVideoTrack c.senders t }

/-- `startScreenShare` (room.js lines 545-577) after `getDisplayMedia`
succeeded with video track `screenTrack`: in every peer connection replace the
first video sender's track by the screen track, remember the screen stream,
set the sharing flag.  Nothing is emitted on the socket. -/
def startScreenShare (st : ClientState) (screenTrack : Track) :
    ClientState × List ClientMsg :=
  ({ st with
      peers := st.peers.map (fun (p : String × PeerConn) => (p.1, swapVideo screenTrack p.2)),
      screenTrack := some screenTrack,
      isScreenSharing := true }, [])

/-- `stopScreenShare` (room.js lines 579-603): stop the screen tracks and, when
the camera stream has a video track, swap it back into every peer connection;
clear the sharing flag.  Nothing is emitted on the socket. -/
def stopScreenShare (st : ClientState) : ClientState × List ClientMsg :=
  let st1 :=
    match firstVideoTrack st.localTracks with
    | some v => { st with peers := st.peers.map (fun (p : String × PeerConn) => (p.1, swapVideo v p.2)) }
    | none => st
  ({ st1 with isScreenSharing := false }, [])

/-- A freshly initialised client holding camera audio and video tracks. -/
def mkClient : ClientState :=
  { peers := [],
    localTracks := [⟨TrackKind.audio, "cam-audio"⟩, ⟨TrackKind.video, "cam-video"⟩],
    screenTrack := none,
    isScreenSharing := false }

/-- A concrete connected peer, used by witnesses. -/
def samplePeer : PeerConn :=
  { username := some "bo", initiator := true, localDesc := some mkOffer,
    remoteDesc := some "a-sdp", applied := ["c1"],
    senders := [⟨TrackKind.audio, "cam-audio"⟩, ⟨TrackKind.video, "cam-video"⟩],
    connectionState := "connected" }

/-- A concrete client with one connected peer, used by witnesses. -/
def sampleClient : ClientState :=
  { peers := [("p", samplePeer)],
    localTracks := [⟨TrackKind.audio, "cam-audio"⟩, ⟨TrackKind.video, "cam-video"⟩],
    screenTrack := none, isScreenSharing := false }

/-- The freshly created initiator session toward "A", used by witnesses. -/
def peerForA : PeerConn :=
  { username := some "al", initiator := true, localDesc := some mkOffer,
    remoteDesc := none, applied := [],
    senders := [⟨TrackKind.audio, "cam-audio"⟩, ⟨TrackKind.video, "cam-video"⟩],
    connectionState := "new" }

/-- Number of occurrences of an element in a list (used to state that an event
is delivered exactly once). -/
def countOcc {α : Type} [DecidableEq α] (l : List α) (a : α) : Nat :=
  (l.filter (fun x => x = a)).length

/-! Association-list lemmas mirroring JS `Map` behaviour. -/

theorem mapGet_mapSet_self {α β : Type} [DecidableEq α] (l : List (α × β)) (k : α) (v : β) :
    mapGet (mapSet l k v) k = some v := by
  induction l with
  | nil => simp [mapSet, mapGet]
  | cons a rest ih =>
    obtain ⟨k', v'⟩ := a
    by_cases h : k' = k
    · simp [mapSet, mapGet, h]
    · simp [mapSet, mapGet, h, ih]

theorem mapGet_mapSet_ne {α β : Type} [DecidableEq α] (l : List (α × β)) (k k' : α) (v : β)
    (h : k' ≠ k) : mapGet (mapSet l k v) k' = mapGet l k' := by
  induction l with
  | nil => simp [mapSet, mapGet, Ne.symm h]
  | cons a rest ih =>
    obtain ⟨ka, va⟩ := a
    by_cases hk : ka = k
    · subst hk
      simp [mapSet, mapGet, h, Ne.symm h]
    · by_cases hk' : ka = k' <;> simp [mapSet, mapGet, hk, hk', ih, h]

theorem mapSet_ne_nil {α β : Type} [DecidableEq α] (l : List (α × β)) (k : α) (v : β) :
    mapSet l k v ≠ [] := by
  cases l with
  | nil => simp [mapSet]
  | cons a rest =>
    obtain ⟨ka, va⟩ := a
    by_cases h : ka = k <;> simp [mapSet, h]

theorem mapGet_eq_none_iff {α β : Type} [DecidableEq α] (l : List (α × β)) (k : α) :
    mapGet l k = none ↔ k ∉ l.map Prod.fst := by
  induction l with
  | nil => simp [mapGet]
  | cons a rest ih =>
    obtain ⟨ka, va⟩ := a
    by_cases h : ka = k
    · simp [mapGet, h]
    · simp [mapGet, h, ih, Ne.symm h]

theorem mapGet_mem {α β : Type} [DecidableEq α] (l : List (α × β)) (k : α) (v : β)
    (h : mapGet l k = some v) : (k, v) ∈ l := by
  induction l with
  | nil => simp [mapGet] at h
  | cons a rest ih =>
    obtain ⟨ka, va⟩ := a
    by_cases hk : ka = k
    · subst hk
      simp [mapGet] at h
      simp [h]
    · simp [mapGet, hk] at h
      exact List.mem_cons_of_mem _ (ih h)

theorem mem_keys_mapSet {α β : Type} [DecidableEq α] (l : List (α × β)) (k x : α) (v : β) :
    x ∈ (mapSet l k v).map Prod.fst ↔ x ∈ l.map Prod.fst ∨ x = k := by
  induction l with
  | nil => simp [mapSet]
  | cons a rest ih =>
    obtain ⟨ka, va⟩ := a
    by_cases h : ka = k
    · subst h
      simp [mapSet]
      tauto
    · simp [mapSet, h, ih]
      tauto

theorem nodup_keys_mapSet {α β : Type} [DecidableEq α] (l : List (α × β)) (k : α) (v : β)
    (h : (l.map Prod.fst).Nodup) : ((mapSet l k v).map Prod.fst).Nodup := by
  induction l with
  | nil => simp [mapSet]
  | cons a rest ih =>
    obtain ⟨ka, va⟩ := a
    rw [List.map_cons, List.nodup_cons] at h
    by_cases hk : ka = k
    · subst hk
      simpa [mapSet] using h
    · simp only [mapSet, if_neg hk, List.map_cons, List.nodup_cons]
      refine ⟨fun hx => ?_, ih h.2⟩
      rcases (mem_keys_mapSet rest k ka v).1 hx with hx' | hx'
      · exact h.1 hx'
      · exact hk hx'

theorem mapGet_mapDelete_ne {α β : Type} [DecidableEq α] (l : List (α × β)) (k k' : α)
    (h : k' ≠ k) : mapGet (mapDelete l k) k' = mapGet l k' := by
  induction l with
  | nil => simp [mapDelete]
  | cons a rest ih =>
    obtain ⟨ka, va⟩ := a
    by_cases hk : ka = k
    · subst hk
      simp [mapDelete, mapGet, Ne.symm h]
    · by_cases hk' : ka = k' <;> simp [mapDelete, mapGet, hk, hk', ih, h]

theorem mapGet_mapDelete_self {α β : Type} [DecidableEq α] (l : List (α × β)) (k : α)
    (h : (l.map Prod.fst).Nodup) : mapGet (mapDelete l k) k = none := by
  induction l with
  | nil => simp [mapDelete, mapGet]
  | cons a rest ih =>
    obtain ⟨ka, va⟩ := a
    rw [List.map_cons, List.nodup_cons] at h
    by_cases hk : ka = k
    · subst hk
      rw [mapGet_eq_none_iff]
      simpa [mapDelete] using h.1
    · simp [mapDelete, mapGet, hk, ih h.2]

theorem keys_mapDelete_sublist {α β : Type} [DecidableEq α] (l : List (α × β)) (k : α) :
    ((mapDelete l k).map Prod.fst).Sublist (l.map Prod.fst) := by
  induction l with
  | nil => simp [mapDelete]
  | cons a rest ih =>
    obtain ⟨ka, va⟩ := a
    by_cases hk : ka = k
    · simp [mapDelete, hk]
    · simpa [mapDelete, hk] using ih.cons₂ ka

theorem nodup_keys_mapDelete {α β : Type} [DecidableEq α] (l : List (α × β)) (k : α)
    (h : (l.map Prod.fst).Nodup) : ((mapDelete l k).map Prod.fst).Nodup :=
  (keys_mapDelete_sublist l k).nodup h

theorem mem_keys_mapDelete {α β : Type} [DecidableEq α] (l : List (α × β)) (k x : α)
    (h : (l.map Prod.fst).Nodup) :
    x ∈ (mapDelete l k).map Prod.fst ↔ x ∈ l.map Prod.fst ∧ x ≠ k := by
  induction l with
  | nil => simp [mapDelete]
  | cons a rest ih =>
    obtain ⟨ka, va⟩ := a
    rw [List.map_cons, List.nodup_cons] at h
    by_cases hk : ka = k
    · subst hk
      simp only [mapDelete, if_pos rfl, List.map_cons, List.mem_cons]
      constructor
      · intro hx
        exact ⟨Or.inr hx, fun he => h.1 (he ▸ hx)⟩
      · rintro ⟨hx | hx, hne⟩
        · exact absurd hx hne
        · exact hx
    · simp only [mapDelete, if_neg hk, List.map_cons, List.mem_cons, ih h.2]
      constructor
      · rintro (hx | ⟨hx, hne⟩)
        · exact ⟨Or.inl hx, fun he => hk (hx ▸ he)⟩
        · exact ⟨Or.inr hx, hne⟩
      · rintro ⟨hx | hx, hne⟩
        · exact Or.inl hx
        · exact Or.inr ⟨hx, hne⟩

theorem mapDelete_keys_subset_of_nil {α β : Type} [DecidableEq α] (l : List (α × β)) (k : α)
    (h : mapDelete l k = []) : ∀ e ∈ l, e.1 = k := by
  cases l with
  | nil => simp
  | cons a rest =>
    obtain ⟨ka, va⟩ := a
    by_cases hk : ka = k
    · subst hk
      simp [mapDelete] at h
      subst h
      simp
    · simp [mapDelete, hk] at h

theorem mem_mapSet {α β : Type} [DecidableEq α] (l : List (α × β)) (k : α) (v : β)
    (e : α × β) (h : e ∈ mapSet l k v) : e ∈ l ∨ e = (k, v) := by
  induction l with
  | nil => simpa [mapSet] using h
  | cons a rest ih =>
    obtain ⟨ka, va⟩ := a
    by_cases hk : ka = k
    · subst hk
      simp [mapSet] at h
      tauto
    · simp [mapSet, hk] at h
      rcases h with h | h
      · simp [h]
      · rcases ih h with h' | h'
        · exact Or.inl (List.mem_cons_of_mem _ h')
        · exact Or.inr h'

theorem mem_mapDelete {α β : Type} [DecidableEq α] (l : List (α × β)) (k : α)
    (e : α × β) (h : e ∈ mapDelete l k) : e ∈ l := by
  induction l with
  | nil => exact absurd h (by simp [mapDelete])
  | cons a rest ih =>
    obtain ⟨ka, va⟩ := a
    by_cases hk : ka = k
    · subst hk
      simp [mapDelete] at h
      exact List.mem_cons_of_mem _ h
    · simp [mapDelete, hk] at h
      rcases h with h | h
      · simp [h]
      · exact List.mem_cons_of_mem _ (ih h)

/-! Preservation of structural well-formedness by every server event. -/

theorem goodState_initial : goodState initialServer := by
  simp [goodState, initialServer]

theorem goodState_connectSock (st : ServerState) (sid : String) (h : goodState st) :
    goodState (connectSock st sid) := by
  unfold connectSock
  by_cases hc : (mapGet st.sockets sid).isSome
  · rw [if_pos hc]
    exact h
  · obtain ⟨h1, h2, h3⟩ := h
    have hn : sid ∉ st.sockets.map Prod.fst := by
      rw [← mapGet_eq_none_iff]
      exact Option.not_isSome_iff_eq_none.mp hc
    rw [if_neg hc]
    refine ⟨?_, h2, h3⟩
    simp only [List.map_append, List.map_cons, List.map_nil]
    rw [List.nodup_append]
    refine ⟨h1, List.nodup_singleton _, ?_⟩
    intro a ha hs
    simp only [List.mem_singleton] at hs
    exact hn (hs ▸ ha)

theorem goodState_handleJoinRoom (st : ServerState) (sid roomId : String)
    (username : Option String) (h : goodState st) :
    goodState (handleJoinRoom st sid roomId username).1 := by
  obtain ⟨h1, h2, h3⟩ := h
  unfold handleJoinRoom
  refine ⟨?_, ?_, ?_⟩
  · exact nodup_keys_mapSet _ _ _ (nodup_keys_mapSet _ _ _ h1)
  · exact nodup_keys_mapSet _ _ _ h2
  · intro e he
    rcases mem_mapSet _ _ _ _ he with he' | he'
    · exact h3 e he'
    · subst he'
      constructor
      · exact mapSet_ne_nil _ _ _
      · refine nodup_keys_mapSet _ _ _ ?_
        cases hr : mapGet st.rooms roomId with
        | none => simp [hr]
        | some room => simpa [hr] using (h3 _ (mapGet_mem _ _ _ hr)).2

theorem goodState_handleDisconnect (st : ServerState) (sid : String) (h : goodState st) :
    goodState (handleDisconnect st sid).1 := by
  obtain ⟨h1, h2, h3⟩ := h
  cases hro : ((mapGet st.sockets sid).getD {}).roomId with
  | none =>
    simp only [handleDisconnect, hro]
    exact ⟨nodup_keys_mapDelete _ _ h1, h2, h3⟩
  | some rid =>
    cases hr : mapGet st.rooms rid with
    | none =>
      simp only [handleDisconnect, hro, hr]
      exact ⟨nodup_keys_mapDelete _ _ h1, h2, h3⟩
    | some room =>
      by_cases hemp : (mapDelete room sid).isEmpty
      · simp only [handleDisconnect, hro, hr, hemp, if_true]
        exact ⟨nodup_keys_mapDelete _ _ h1, nodup_keys_mapDelete _ _ h2,
          fun e he => h3 e (mem_mapDelete _ _ _ he)⟩
      · simp only [handleDisconnect, hro, hr, hemp, Bool.false_eq_true, if_false]
        refine ⟨nodup_keys_mapDelete _ _ h1, nodup_keys_mapSet _ _ _ h2, ?_⟩
        intro e he
        rcases mem_mapSet _ _ _ _ he with he' | he'
        · exact h3 e he'
        · subst he'
          refine ⟨?_, nodup_keys_mapDelete _ _ (h3 _ (mapGet_mem _ _ _ hr)).2⟩
          intro hnil
          have hnil' : mapDelete room sid = [] := hnil
          rw [hnil'] at hemp
          exact hemp rfl

theorem goodState_step (st : ServerState) (e : Ev) (h : goodState st) :
    goodState (step st e).1 := by
  cases e with
  | connect sid => exact goodState_connectSock st sid h
  | joinRoom sid r u => exact goodState_handleJoinRoom st sid r u h
  | offerEv sid toId offer => exact h
  | answerEv sid toId answer => exact h
  | iceEv sid toId cand => exact h
  | chatEv sid r m ts => exact h
  | toggleAudioEv sid r en => exact h
  | toggleVideoEv sid r en => exact h
  | disconnectEv sid => exact goodState_handleDisconnect st sid h

theorem goodState_run (st : ServerState) (evs : List Ev) (h : goodState st) :
    goodState (run st evs) := by
  induction evs generalizing st with
  | nil => exact h
  | cons e rest ih => exact ih _ (goodState_step st e h)

/-- C3: after any sequence of server events starting from the empty registry,
every room id the registry still maps to a room object has a non-empty member
Map; when the last member of a room leaves, the disconnect handler deletes the
room object, so an empty room is never retrievable. -/
theorem c3_no_empty_room (evs : List Ev) (rid : String)
    (room : List (String × Participant))
    (h : mapGet (run initialServer evs).rooms rid = some room) : room ≠ [] :=
  ((goodState_run initialServer evs goodState_initial).2.2 _ (mapGet_mem _ _ _ h)).1

/-- Witness for C3 at a concrete history: after the last member "a" of room
"r" disconnects, the registry maps "r" to nothing, and while "a" was joined the
entry was non-empty. -/
theorem c3_no_empty_room_witness :
    mapGet (run initialServer [Ev.connect "a", Ev.joinRoom "a" "r" (some "alice")]).rooms "r"
        = some [("a", ⟨some "alice", "a"⟩)] ∧
      ([("a", (⟨some "alice", "a"⟩ : Participant))] : List (String × Participant)) ≠ [] ∧
      mapGet (run initialServer
          [Ev.connect "a", Ev.joinRoom "a" "r" (some "alice"), Ev.disconnectEv "a"]).rooms "r"
        = none :=
  ⟨by decide, c3_no_empty_room [Ev.connect "a", Ev.joinRoom "a" "r" (some "alice")] "r" _ (by decide),
    by decide⟩

/-- C7 counterexample: the join-room handler performs no validation; a
join-room whose display-name field is absent still registers a participant
record whose name is missing, so an entry with a missing field is added to the
room's member map, contrary to the claim. -/
theorem c7_counterexample :
    mapGet (handleJoinRoom (connectSock initialServer "s1") "s1" "r1" none).1.rooms "r1"
      = some [("s1", ⟨none, "s1"⟩)] := by decide

/-- C7 amended: the server rejects nothing: every join-room, including one with
a missing display name, registers the participant record exactly as received
(the record is stored under the socket id with whatever username field, present
or absent, the payload carried). -/
theorem c7_amended_join_never_rejected (st : ServerState) (sid roomId : String)
    (username : Option String) :
    mapGet ((mapGet (handleJoinRoom st sid roomId username).1.rooms roomId).getD []) sid
      = some { username := username, id := sid } := by
  simp [handleJoinRoom, mapGet_mapSet_self]

/-! Delivery lemmas for room broadcasts. -/

theorem nodup_socketsInRoom (st : ServerState) (x : String)
    (h : (st.sockets.map Prod.fst).Nodup) : (socketsInRoom st x).Nodup := by
  unfold socketsInRoom
  exact ((List.filter_sublist st.sockets).map Prod.fst).nodup h

theorem countOcc_cons {α : Type} [DecidableEq α] (x a : α) (l : List α) :
    countOcc (x :: l) a = (if x = a then 1 else 0) + countOcc l a := by
  by_cases h : x = a <;> simp [countOcc, h, Nat.add_comm]

theorem countOcc_eq_zero_of_not_mem {α : Type} [DecidableEq α] (l : List α) (a : α)
    (ha : a ∉ l) : countOcc l a = 0 := by
  unfold countOcc
  rw [List.length_eq_zero, List.filter_eq_nil_iff]
  intro b hb
  simp only [decide_eq_true_eq]
  intro he
  exact ha (he ▸ hb)

theorem countOcc_eq_one_of_nodup_mem {α : Type} [DecidableEq α] (l : List α) (a : α)
    (hnd : l.Nodup) (ha : a ∈ l) : countOcc l a = 1 := by
  induction l with
  | nil => cases ha
  | cons x rest ih =>
    rw [countOcc_cons]
    rw [List.nodup_cons] at hnd
    rcases List.mem_cons.mp ha with h | h
    · subst h
      rw [countOcc_eq_zero_of_not_mem _ _ hnd.1]
      simp
    · have hx : x ≠ a := fun he => hnd.1 (he ▸ h)
      simp [hx, ih hnd.2 h]

theorem count_map_pair (ms : List String) (m : ServerMsg) (s : String)
    (hnd : ms.Nodup) (hs : s ∈ ms) :
    countOcc (ms.map (fun sid => (sid, m))) (s, m) = 1 := by
  have hinj : Function.Injective (fun sid => ((sid, m) : String × ServerMsg)) := by
    intro a b hab
    simpa using congrArg Prod.fst hab
  exact countOcc_eq_one_of_nodup_mem _ _ (hnd.map hinj) (List.mem_map.mpr ⟨s, hs, rfl⟩)

theorem mem_map_pair (ms : List String) (m : ServerMsg) (p : String × ServerMsg)
    (h : p ∈ ms.map (fun sid => (sid, m))) : p.1 ∈ ms ∧ p.2 = m := by
  rcases List.mem_map.mp h with ⟨s, hs, hp⟩
  subst hp
  exact ⟨hs, rfl⟩

/-- C5: a chat-message from socket `sid` naming room `roomId` makes the server
emit exactly one chat-message event to every socket currently in that room,
the sender included, carrying the unchanged message text, the sender's id and
stored display name, and the server-assigned timestamp; the server state is
untouched. -/
theorem c5_chat_echoed_to_all (st : ServerState) (sid roomId message timestamp : String)
    (hnd : (st.sockets.map Prod.fst).Nodup)
    (hmem : sid ∈ socketsInRoom st roomId) :
    (handleChatMessage st sid roomId message timestamp).1 = st ∧
    (∀ s ∈ socketsInRoom st roomId,
      countOcc ((handleChatMessage st sid roomId message timestamp).2)
        (s, ServerMsg.chatMsg sid (sockUsername st sid) message timestamp) = 1) ∧
    (∀ p ∈ (handleChatMessage st sid roomId message timestamp).2,
      p.1 ∈ socketsInRoom st roomId ∧
        p.2 = ServerMsg.chatMsg sid (sockUsername st sid) message timestamp) ∧
    countOcc ((handleChatMessage st sid roomId message timestamp).2)
      (sid, ServerMsg.chatMsg sid (sockUsername st sid) message timestamp) = 1 := by
  refine ⟨rfl, ?_, ?_, ?_⟩
  · intro s hs
    exact count_map_pair _ _ _ (nodup_socketsInRoom st roomId hnd) hs
  · intro p hp
    exact mem_map_pair _ _ _ hp
  · exact count_map_pair _ _ _ (nodup_socketsInRoom st roomId hnd) hmem

/-- Witness for C5: in a two-member room, a chat from "a" is delivered once to
"b" and once back to "a" itself. -/
theorem c5_chat_echoed_to_all_witness :
    ((run initialServer [Ev.connect "a", Ev.joinRoom "a" "r" (some "al"),
        Ev.connect "b", Ev.joinRoom "b" "r" (some "bo")]).sockets.map Prod.fst).Nodup ∧
    "a" ∈ socketsInRoom (run initialServer [Ev.connect "a", Ev.joinRoom "a" "r" (some "al"),
        Ev.connect "b", Ev.joinRoom "b" "r" (some "bo")]) "r" ∧
    countOcc ((handleChatMessage (run initialServer [Ev.connect "a", Ev.joinRoom "a" "r" (some "al"),
        Ev.connect "b", Ev.joinRoom "b" "r" (some "bo")]) "a" "r" "hi" "t0").2)
      ("a", ServerMsg.chatMsg "a" (some "al") "hi" "t0") = 1 := by
  refine ⟨by decide, by decide, ?_⟩
  have h := c5_chat_echoed_to_all (run initialServer [Ev.connect "a", Ev.joinRoom "a" "r" (some "al"),
        Ev.connect "b", Ev.joinRoom "b" "r" (some "bo")]) "a" "r" "hi" "t0" (by decide) (by decide)
  have hu : sockUsername (run initialServer [Ev.connect "a", Ev.joinRoom "a" "r" (some "al"),
      Ev.connect "b", Ev.joinRoom "b" "r" (some "bo")]) "a" = some "al" := by decide
  simpa [hu] using h.2.2.2

/-- C10: a toggle-audio or toggle-video from socket `sid` naming room `roomId`
is relayed exactly once to every other socket in that room, and never echoed
back to the sender: every emitted event targets a room member different from
`sid` and carries the sender id and the flag. -/
theorem c10_toggle_not_echoed (st : ServerState) (sid roomId : String) (enabled : Bool)
    (hnd : (st.sockets.map Prod.fst).Nodup) :
    (∀ s ∈ socketsInRoom st roomId, s ≠ sid →
      countOcc ((handleToggleAudio st sid roomId enabled).2)
        (s, ServerMsg.toggleAudioMsg sid enabled) = 1) ∧
    (∀ p ∈ (handleToggleAudio st sid roomId enabled).2,
      p.1 ≠ sid ∧ p.1 ∈ socketsInRoom st roomId ∧
        p.2 = ServerMsg.toggleAudioMsg sid enabled) ∧
    (∀ s ∈ socketsInRoom st roomId, s ≠ sid →
      countOcc ((handleToggleVideo st sid roomId enabled).2)
        (s, ServerMsg.toggleVideoMsg sid enabled) = 1) ∧
    (∀ p ∈ (handleToggleVideo st sid roomId enabled).2,
      p.1 ≠ sid ∧ p.1 ∈ socketsInRoom st roomId ∧
        p.2 = ServerMsg.toggleVideoMsg sid enabled) := by
  have hndf : ((socketsInRoom st roomId).filter (fun s => s ≠ sid)).Nodup :=
    (List.filter_sublist _).nodup (nodup_socketsInRoom st roomId hnd)
  refine ⟨?_, ?_, ?_, ?_⟩
  · intro s hs hne
    refine count_map_pair _ _ _ hndf ?_
    exact List.mem_filter.mpr ⟨hs, by simpa using hne⟩
  · intro p hp
    obtain ⟨h1, h2⟩ := mem_map_pair _ _ _ hp
    have := List.mem_filter.mp h1
    exact ⟨by simpa using this.2, this.1, h2⟩
  · intro s hs hne
    refine count_map_pair _ _ _ hndf ?_
    exact List.mem_filter.mpr ⟨hs, by simpa using hne⟩
  · intro p hp
    obtain ⟨h1, h2⟩ := mem_map_pair _ _ _ hp
    have := List.mem_filter.mp h1
    exact ⟨by simpa using this.2, this.1, h2⟩

/-- Witness for C10: in a two-member room, "a" toggling audio reaches "b"
exactly once and nothing addressed to "a" is emitted. -/
theorem c10_toggle_not_echoed_witness :
    ((run initialServer [Ev.connect "a", Ev.joinRoom "a" "r" (some "al"),
        Ev.connect "b", Ev.joinRoom "b" "r" (some "bo")]).sockets.map Prod.fst).Nodup ∧
    "b" ∈ socketsInRoom (run initialServer [Ev.connect "a", Ev.joinRoom "a" "r" (some "al"),
        Ev.connect "b", Ev.joinRoom "b" "r" (some "bo")]) "r" ∧
    countOcc ((handleToggleAudio (run initialServer [Ev.connect "a", Ev.joinRoom "a" "r" (some "al"),
        Ev.connect "b", Ev.joinRoom "b" "r" (some "bo")]) "a" "r" false).2)
      ("b", ServerMsg.toggleAudioMsg "a" false) = 1 := by
  refine ⟨by decide, by decide, ?_⟩
  have h := c10_toggle_not_echoed (run initialServer [Ev.connect "a", Ev.joinRoom "a" "r" (some "al"),
      Ev.connect "b", Ev.joinRoom "b" "r" (some "bo")]) "a" "r" false (by decide)
  exact h.1 "b" (by decide) (by decide)

/-- C6 counterexample: a directed offer whose target id is not a connected
participant is not always dropped: when the target string names a socket.io
room (here the conference room "g" that "A" and "B" joined), `socket.to`
delivers the offer to that room's other members, so "B" receives it although
"g" is no connected participant. -/
theorem c6_counterexample :
    "g" ∉ (run initialServer [Ev.connect "A", Ev.joinRoom "A" "g" (some "alice"),
        Ev.connect "B", Ev.joinRoom "B" "g" (some "bob")]).sockets.map Prod.fst ∧
    (handleOffer (run initialServer [Ev.connect "A", Ev.joinRoom "A" "g" (some "alice"),
        Ev.connect "B", Ev.joinRoom "B" "g" (some "bob")]) "A" "g" "sdp").2
      = [("B", ServerMsg.offerMsg "A" (some "alice") "sdp")] := by
  constructor
  · decide
  · decide

/-- C6 amended: a directed offer, answer or ice-candidate whose target id
names neither a connected socket (personal room) nor a socket.io room some
socket has joined is delivered to no one; the server state is unchanged (so
nothing is queued for retry) and no error is surfaced to the sender (the
handlers are total and emit nothing). -/
theorem c6_directed_to_absent_dropped (st : ServerState) (sid toId payload : String)
    (h : ∀ p ∈ st.sockets, p.1 ≠ toId ∧ toId ∉ p.2.joined) :
    handleOffer st sid toId payload = (st, []) ∧
    handleAnswer st sid toId payload = (st, []) ∧
    handleIceCandidate st sid toId payload = (st, []) := by
  have hroom : socketsInRoom st toId = [] := by
    unfold socketsInRoom
    rw [List.map_eq_nil_iff, List.filter_eq_nil_iff]
    intro p hp
    obtain ⟨h1, h2⟩ := h p hp
    simp [h1, h2]
  have hexc : ∀ m, emitToRoomExcept st toId sid m = [] := by
    intro m
    unfold emitToRoomExcept
    rw [hroom]
    rfl
  unfold handleOffer handleAnswer handleIceCandidate
  rw [hexc, hexc, hexc]
  exact ⟨rfl, rfl, rfl⟩

/-- Witness for the amended C6: with "a" and "b" connected in room "r", a
directed answer to the absent id "zz" is dropped entirely. -/
theorem c6_directed_to_absent_dropped_witness :
    (∀ p ∈ (run initialServer [Ev.connect "a", Ev.joinRoom "a" "r" (some "al"),
        Ev.connect "b", Ev.joinRoom "b" "r" (some "bo")]).sockets,
      p.1 ≠ "zz" ∧ "zz" ∉ p.2.joined) ∧
    handleAnswer (run initialServer [Ev.connect "a", Ev.joinRoom "a" "r" (some "al"),
        Ev.connect "b", Ev.joinRoom "b" "r" (some "bo")]) "a" "zz" "sdp"
      = (run initialServer [Ev.connect "a", Ev.joinRoom "a" "r" (some "al"),
          Ev.connect "b", Ev.joinRoom "b" "r" (some "bo")], []) := by
  refine ⟨by decide, ?_⟩
  exact (c6_directed_to_absent_dropped (run initialServer [Ev.connect "a",
    Ev.joinRoom "a" "r" (some "al"), Ev.connect "b", Ev.joinRoom "b" "r" (some "bo")])
    "a" "zz" "sdp" (by decide)).2.1

/-- C8: the disconnect handler is safe without established membership: when the
socket never stored a room id, the room registry is left unchanged and no
user-left event is emitted; when the socket had joined room `rid`, exactly the
key `sid` is removed from that room's member map (every other room is
untouched) and a user-left event is sent to every other socket of that room. -/
theorem c8_disconnect_safe (st : ServerState) (sid : String) (hg : goodState st) :
    (((mapGet st.sockets sid).getD {}).roomId = none →
      (handleDisconnect st sid).1.rooms = st.rooms ∧ (handleDisconnect st sid).2 = []) ∧
    (∀ rid, ((mapGet st.sockets sid).getD {}).roomId = some rid →
      (∀ r, r ≠ rid → mapGet (handleDisconnect st sid).1.rooms r = mapGet st.rooms r) ∧
      (∀ s, s ∈ memberIds (handleDisconnect st sid).1 rid ↔ s ∈ memberIds st rid ∧ s ≠ sid) ∧
      (handleDisconnect st sid).2 =
        ((socketsInRoom st rid).filter (fun s => s ≠ sid)).map
          (fun s => (s, ServerMsg.userLeft sid (sockUsername st sid)))) := by
  obtain ⟨h1, h2, h3⟩ := hg
  constructor
  · intro hro
    simp only [handleDisconnect, hro]
    exact ⟨trivial, trivial⟩
  · intro rid hro
    cases hr : mapGet st.rooms rid with
    | none =>
      simp only [handleDisconnect, hro, hr]
      refine ⟨?_, ?_, ?_⟩
      · intro r hne
        trivial
      · intro s
        simp [memberIds, hr]
      · trivial
    | some room =>
      have hroomnd : (room.map Prod.fst).Nodup := (h3 _ (mapGet_mem _ _ _ hr)).2
      by_cases hemp : (mapDelete room sid).isEmpty
      · have hnil : mapDelete room sid = [] := by
          simpa using hemp
        simp only [handleDisconnect, hro, hr, hemp, if_true]
        refine ⟨?_, ?_, rfl⟩
        · intro r hne
          exact mapGet_mapDelete_ne _ _ _ hne
        · intro s
          have hkeys := mapDelete_keys_subset_of_nil room sid hnil
          simp only [memberIds, mapGet_mapDelete_self st.rooms rid h2, hr]
          simp only [Option.getD_some, Option.getD_none, List.map_nil, List.not_mem_nil,
            false_iff]
          rintro ⟨hs, hne⟩
          rcases List.mem_map.mp hs with ⟨e, he, hk⟩
          exact hne (hk ▸ hkeys e he)
      · simp only [handleDisconnect, hro, hr, hemp, Bool.false_eq_true, if_false]
        refine ⟨?_, ?_, rfl⟩
        · intro r hne
          exact mapGet_mapSet_ne _ _ _ _ hne
        · intro s
          simp only [memberIds, mapGet_mapSet_self, hr, Option.getD_some]
          exact mem_keys_mapDelete room sid s hroomnd
/-- Witness for C8 at a concrete state: disconnecting the never-joined socket
"x" leaves the registry unchanged and emits nothing, while disconnecting the
member "b" removes it from room "r" and notifies "c" only. -/
theorem c8_disconnect_safe_witness :
    goodState (run initialServer [Ev.connect "x", Ev.connect "b",
        Ev.joinRoom "b" "r" (some "bo"), Ev.connect "c", Ev.joinRoom "c" "r" (some "ca")]) ∧
    ((mapGet (run initialServer [Ev.connect "x", Ev.connect "b",
        Ev.joinRoom "b" "r" (some "bo"), Ev.connect "c", Ev.joinRoom "c" "r" (some "ca")]).sockets
        "x").getD {}).roomId = none ∧
    (handleDisconnect (run initialServer [Ev.connect "x", Ev.connect "b",
        Ev.joinRoom "b" "r" (some "bo"), Ev.connect "c", Ev.joinRoom "c" "r" (some "ca")])
        "x").1.rooms
      = (run initialServer [Ev.connect "x", Ev.connect "b",
        Ev.joinRoom "b" "r" (some "bo"), Ev.connect "c", Ev.joinRoom "c" "r" (some "ca")]).rooms ∧
    (handleDisconnect (run initialServer [Ev.connect "x", Ev.connect "b",
        Ev.joinRoom "b" "r" (some "bo"), Ev.connect "c", Ev.joinRoom "c" "r" (some "ca")])
        "x").2 = [] ∧
    (("b" ∈ memberIds (handleDisconnect (run initialServer [Ev.connect "x", Ev.connect "b",
        Ev.joinRoom "b" "r" (some "bo"), Ev.connect "c", Ev.joinRoom "c" "r" (some "ca")])
        "b").1 "r") ↔
      ("b" ∈ memberIds (run initialServer [Ev.connect "x", Ev.connect "b",
        Ev.joinRoom "b" "r" (some "bo"), Ev.connect "c", Ev.joinRoom "c" "r" (some "ca")]) "r"
        ∧ "b" ≠ "b")) := by
  refine ⟨by decide, by decide, ?_, ?_, ?_⟩
  · exact ((c8_disconnect_safe (run initialServer [Ev.connect "x", Ev.connect "b",
      Ev.joinRoom "b" "r" (some "bo"), Ev.connect "c", Ev.joinRoom "c" "r" (some "ca")])
      "x" (by decide)).1 (by decide)).1
  · exact ((c8_disconnect_safe (run initialServer [Ev.connect "x", Ev.connect "b",
      Ev.joinRoom "b" "r" (some "bo"), Ev.connect "c", Ev.joinRoom "c" "r" (some "ca")])
      "x" (by decide)).1 (by decide)).2
  · exact ((c8_disconnect_safe (run initialServer [Ev.connect "x", Ev.connect "b",
      Ev.joinRoom "b" "r" (some "bo"), Ev.connect "c", Ev.joinRoom "c" "r" (some "ca")])
      "b" (by decide)).2 "r" (by decide)).2.1 "b"

/-! Client-side lemmas for the screen-share track swap. -/

theorem replaceFirstVideoTrack_eq_set (l : List Track) (t : Track) :
    replaceFirstVideoTrack l t =
      (match firstVideoIdx l with
       | none => l
       | some i => l.set i t) := by
  induction l with
  | nil => rfl
  | cons s rest ih =>
    by_cases h : s.kind = TrackKind.video
    · simp [replaceFirstVideoTrack, firstVideoIdx, h]
    · simp only [replaceFirstVideoTrack, firstVideoIdx, h, if_false, ih]
      cases firstVideoIdx rest with
      | none => simp
      | some i => simp [List.set]

theorem mapGet_map_val {α β γ : Type} [DecidableEq α] (l : List (α × β)) (f : β → γ) (k : α) :
    mapGet (l.map (fun p => (p.1, f p.2))) k = (mapGet l k).map f := by
  induction l with
  | nil => rfl
  | cons a rest ih =>
    obtain ⟨ka, va⟩ := a
    by_cases h : ka = k <;> simp [mapGet, h, ih]

theorem keys_map_val {α β γ : Type} (l : List (α × β)) (f : β → γ) :
    (l.map (fun p => (p.1, f p.2))).map Prod.fst = l.map Prod.fst := by
  induction l with
  | nil => rfl
  | cons a rest ih => simp [ih]

/-- C9: starting screen capture emits no signaling message and leaves the peer
set, every per-peer field (role, descriptions, applied candidates, connection
state) and the key order untouched, except that in each peer connection the
first video sender's track is replaced by the screen track (non-video senders
and peers without a video sender are unchanged); stopping capture emits
nothing either and swaps the camera video track back the same way. -/
theorem c9_screenshare_swaps_only_video (st : ClientState) (t : Track) :
    (startScreenShare st t).2 = [] ∧
    (stopScreenShare st).2 = [] ∧
    (startScreenShare st t).1.peers.map Prod.fst = st.peers.map Prod.fst ∧
    (stopScreenShare st).1.peers.map Prod.fst = st.peers.map Prod.fst ∧
    (∀ uid c, mapGet st.peers uid = some c →
      mapGet (startScreenShare st t).1.peers uid =
        some { c with senders :=
          match firstVideoIdx c.senders with
          | none => c.senders
          | some i => c.senders.set i t }) ∧
    (∀ v, firstVideoTrack st.localTracks = some v →
      ∀ uid c, mapGet st.peers uid = some c →
        mapGet (stopScreenShare st).1.peers uid =
          some { c with senders :=
            match firstVideoIdx c.senders with
            | none => c.senders
            | some i => c.senders.set i v }) ∧
    (firstVideoTrack st.localTracks = none → (stopScreenShare st).1.peers = st.peers) := by
  refine ⟨rfl, ?_, ?_, ?_, ?_, ?_, ?_⟩
  · unfold stopScreenShare
    cases firstVideoTrack st.localTracks <;> rfl
  · exact keys_map_val st.peers _
  · unfold stopScreenShare
    cases firstVideoTrack st.localTracks with
    | none => rfl
    | some v => exact keys_map_val st.peers _
  · intro uid c hc
    unfold startScreenShare
    simp only
    rw [mapGet_map_val st.peers (swapVideo t) uid, hc]
    simp [swapVideo, replaceFirstVideoTrack_eq_set]
  · intro v hv uid c hc
    unfold stopScreenShare
    simp only [hv]
    rw [mapGet_map_val st.peers (swapVideo v) uid, hc]
    simp [swapVideo, replaceFirstVideoTrack_eq_set]
  · intro hv
    unfold stopScreenShare
    simp only [hv]

/-- Witness for C9: a client with one connected peer: starting screen capture
replaces exactly the video sender's track for that peer and emits nothing. -/
theorem c9_screenshare_swaps_only_video_witness :
    mapGet sampleClient.peers "p" = some samplePeer ∧
    mapGet (startScreenShare sampleClient ⟨TrackKind.video, "screen"⟩).1.peers "p"
      = some { samplePeer with
          senders := [⟨TrackKind.audio, "cam-audio"⟩, ⟨TrackKind.video, "screen"⟩] } ∧
    (startScreenShare sampleClient ⟨TrackKind.video, "screen"⟩).2 = [] := by
  refine ⟨by decide, ?_, (c9_screenshare_swaps_only_video sampleClient ⟨TrackKind.video, "screen"⟩).1⟩
  have h := (c9_screenshare_swaps_only_video sampleClient
    ⟨TrackKind.video, "screen"⟩).2.2.2.2.1 "p" samplePeer (by decide)
  rw [h]
  decide

/-! Client-side negotiation-role lemmas. -/

theorem createPeerConnection_initiator (st : ClientState) (userId : String)
    (username : Option String) :
    mapGet (createPeerConnection st userId username true).1.peers userId =
      some { username := username, initiator := true, localDesc := some mkOffer,
             remoteDesc := none, applied := [], senders := st.localTracks,
             connectionState := "new" } ∧
    (createPeerConnection st userId username true).2 =
      [ClientMsg.sendOffer userId mkOffer] := by
  unfold createPeerConnection
  simp [mapGet_mapSet_self]

theorem createPeerConnection_responder (st : ClientState) (userId : String)
    (username : Option String) :
    mapGet (createPeerConnection st userId username false).1.peers userId =
      some { username := username, initiator := false, localDesc := none,
             remoteDesc := none, applied := [], senders := st.localTracks,
             connectionState := "new" } ∧
    (createPeerConnection st userId username false).2 = [] := by
  unfold createPeerConnection
  simp [mapGet_mapSet_self]

theorem createPeerConnection_other (st : ClientState) (userId : String)
    (username : Option String) (b : Bool) (x : String) (hx : x ≠ userId) :
    mapGet (createPeerConnection st userId username b).1.peers x = mapGet st.peers x := by
  unfold createPeerConnection
  cases b <;> simp [mapGet_mapSet_ne _ _ _ _ hx]

theorem onExistingUsers_keeps_initiator (st : ClientState) (users : List Participant)
    (x : String) (hx : ∃ c, mapGet st.peers x = some c ∧ c.initiator = true) :
    ∃ c, mapGet (onExistingUsers st users).1.peers x = some c ∧ c.initiator = true := by
  induction users generalizing st with
  | nil => exact hx
  | cons u rest ih =>
    simp only [onExistingUsers]
    refine ih _ ?_
    by_cases he : x = u.id
    · subst he
      exact ⟨_, (createPeerConnection_initiator st u.id u.username).1, rfl⟩
    · rw [createPeerConnection_other st u.id u.username true x he]
      exact hx

theorem onExistingUsers_initiates (st : ClientState) (users : List Participant)
    (p : Participant) (hp : p ∈ users) :
    (∃ c, mapGet (onExistingUsers st users).1.peers p.id = some c ∧ c.initiator = true) ∧
    ClientMsg.sendOffer p.id mkOffer ∈ (onExistingUsers st users).2 := by
  induction users generalizing st with
  | nil => cases hp
  | cons u rest ih =>
    simp only [onExistingUsers]
    rcases List.mem_cons.mp hp with he | he
    · subst he
      constructor
      · exact onExistingUsers_keeps_initiator _ rest p.id
          ⟨_, (createPeerConnection_initiator st p.id p.username).1, rfl⟩
      · rw [List.mem_append, (createPeerConnection_initiator st p.id p.username).2]
        exact Or.inl (List.mem_singleton.mpr rfl)
    · obtain ⟨h1, h2⟩ := ih _ he
      refine ⟨h1, ?_⟩
      rw [List.mem_append]
      exact Or.inr h2

/-- C1 counterexample: with A joining room "r" first and B second, the relay
trace hands A a `user-joined` notification about B and hands B the snapshot
containing A.  A's handler builds the session for B with `initiator = false`
and emits nothing, while B's snapshot handler builds the session for A with
`initiator = true` and sends the offer: the later joiner, not the earlier
member A, is the initiator — the opposite of the claim. -/
theorem c1_counterexample :
    (runTrace initialServer [Ev.connect "A", Ev.joinRoom "A" "r" (some "al"),
        Ev.connect "B", Ev.joinRoom "B" "r" (some "bo")]).2 =
      [("A", ServerMsg.existingUsers []),
       ("A", ServerMsg.userJoined "B" (some "bo")),
       ("B", ServerMsg.existingUsers [⟨some "al", "A"⟩])] ∧
    (mapGet (onUserJoined mkClient "B" (some "bo")).1.peers "B").map PeerConn.initiator
      = some false ∧
    (onUserJoined mkClient "B" (some "bo")).2 = [] ∧
    (mapGet (onExistingUsers mkClient [⟨some "al", "A"⟩]).1.peers "A").map PeerConn.initiator
      = some true ∧
    (onExistingUsers mkClient [⟨some "al", "A"⟩]).2 = [ClientMsg.sendOffer "A" mkOffer] := by
  refine ⟨by decide, by decide, by decide, by decide, by decide⟩

/-- C1 amended: the roles are the reverse of the claim: for a pair where A is
already present and B joins later, B — whose `existing-users` snapshot lists
A — creates the peer connection for A with `initiator = true` and sends the
offer, while A — notified by `user-joined` — creates the connection for B
with `initiator = false` and sends nothing, acting as responder. -/
theorem c1_amended_later_joiner_initiates (stB stA : ClientState)
    (users : List Participant) (p : Participant) (hp : p ∈ users)
    (uid : String) (uname : Option String) :
    (∃ c, mapGet (onExistingUsers stB users).1.peers p.id = some c ∧ c.initiator = true) ∧
    ClientMsg.sendOffer p.id mkOffer ∈ (onExistingUsers stB users).2 ∧
    (∃ c, mapGet (onUserJoined stA uid uname).1.peers uid = some c ∧ c.initiator = false) ∧
    (onUserJoined stA uid uname).2 = [] := by
  obtain ⟨h1, h2⟩ := onExistingUsers_initiates stB users p hp
  refine ⟨h1, h2, ?_, (createPeerConnection_responder stA uid uname).2⟩
  exact ⟨_, (createPeerConnection_responder stA uid uname).1, rfl⟩

/-- Witness for the amended C1 at the concrete two-member scenario. -/
theorem c1_amended_later_joiner_initiates_witness :
    (⟨some "al", "A"⟩ : Participant) ∈ [(⟨some "al", "A"⟩ : Participant)] ∧
    ((∃ c, mapGet (onExistingUsers mkClient [⟨some "al", "A"⟩]).1.peers "A" = some c ∧
        c.initiator = true) ∧
      ClientMsg.sendOffer "A" mkOffer ∈ (onExistingUsers mkClient [⟨some "al", "A"⟩]).2 ∧
      (∃ c, mapGet (onUserJoined mkClient "B" (some "bo")).1.peers "B" = some c ∧
        c.initiator = false) ∧
      (onUserJoined mkClient "B" (some "bo")).2 = []) :=
  ⟨List.mem_singleton.mpr rfl,
    c1_amended_later_joiner_initiates mkClient mkClient [⟨some "al", "A"⟩]
      ⟨some "al", "A"⟩ (List.mem_singleton.mpr rfl) "B" (some "bo")⟩

/-- C2 counterexample: B holds an initiator session for A whose remote
description is still unset.  An ICE candidate from A arriving now leaves the
client state literally unchanged — the candidate is neither applied nor stored
in any queue (no such queue exists) — and after A's answer sets the remote
description the applied list is still empty: the early candidate was dropped,
not replayed, contradicting the claim. -/
theorem c2_counterexample :
    (mapGet (onExistingUsers mkClient [⟨some "al", "A"⟩]).1.peers "A").map
        PeerConn.remoteDesc = some none ∧
    onIceCandidateMsg (onExistingUsers mkClient [⟨some "al", "A"⟩]).1 "A" (some "cand1")
      = (onExistingUsers mkClient [⟨some "al", "A"⟩]).1 ∧
    (mapGet (onAnswer (onIceCandidateMsg (onExistingUsers mkClient [⟨some "al", "A"⟩]).1
        "A" (some "cand1")) "A" "answer-a").peers "A").map PeerConn.applied = some [] ∧
    (mapGet (onAnswer (onIceCandidateMsg (onExistingUsers mkClient [⟨some "al", "A"⟩]).1
        "A" (some "cand1")) "A" "answer-a").peers "A").map PeerConn.remoteDesc
      = some (some "answer-a") := by
  refine ⟨by decide, by decide, by decide, by decide⟩

/-- C2 amended: there is no pending queue: an ICE candidate for a known peer is
attempted immediately on arrival; if the remote description is not yet set the
add fails, the error is caught and logged, and the candidate is dropped with
the client state unchanged; if the remote description is set the candidate is
appended to the applied sequence at once (hence candidates arriving after the
remote description is set are applied in arrival order). -/
theorem c2_amended_ice_applied_immediately_or_dropped (st : ClientState)
    (fromId cand : String) (c : PeerConn) (hc : mapGet st.peers fromId = some c) :
    (c.remoteDesc = none → onIceCandidateMsg st fromId (some cand) = st) ∧
    (∀ d, c.remoteDesc = some d →
      mapGet (onIceCandidateMsg st fromId (some cand)).peers fromId
        = some { c with applied := c.applied ++ [cand] }) := by
  constructor
  · intro hrd
    simp [onIceCandidateMsg, addIceCandidate, hc, hrd]
  · intro d hrd
    simp [onIceCandidateMsg, addIceCandidate, hc, hrd, mapGet_mapSet_self]

/-- Witness for the amended C2: an early candidate leaves the state unchanged;
after the answer is applied, a fresh candidate is appended immediately. -/
theorem c2_amended_ice_applied_immediately_or_dropped_witness :
    mapGet (onExistingUsers mkClient [⟨some "al", "A"⟩]).1.peers "A" = some peerForA ∧
    peerForA.remoteDesc = none ∧
    onIceCandidateMsg (onExistingUsers mkClient [⟨some "al", "A"⟩]).1 "A" (some "cand1")
      = (onExistingUsers mkClient [⟨some "al", "A"⟩]).1 ∧
    mapGet (onAnswer (onExistingUsers mkClient [⟨some "al", "A"⟩]).1 "A" "ans").peers "A"
      = some { peerForA with remoteDesc := some "ans" } ∧
    mapGet (onIceCandidateMsg (onAnswer (onExistingUsers mkClient [⟨some "al", "A"⟩]).1
        "A" "ans") "A" (some "cand2")).peers "A"
      = some { peerForA with remoteDesc := some "ans", applied := ["cand2"] } := by
  refine ⟨by decide, by decide, ?_, by decide, ?_⟩
  · exact (c2_amended_ice_applied_immediately_or_dropped
      (onExistingUsers mkClient [⟨some "al", "A"⟩]).1 "A" "cand1" peerForA (by decide)).1
      (by decide)
  · have h := (c2_amended_ice_applied_immediately_or_dropped
      (onAnswer (onExistingUsers mkClient [⟨some "al", "A"⟩]).1 "A" "ans") "A" "cand2"
      { peerForA with remoteDesc := some "ans" } (by decide)).2 "ans" (by decide)
    rw [h]
    decide

/-! Registry-membership machinery for arbitrary event histories. -/

theorem run_append (st : ServerState) (l1 l2 : List Ev) :
    run st (l1 ++ l2) = run (run st l1) l2 := by
  induction l1 generalizing st with
  | nil => rfl
  | cons e rest ih =>
    rw [List.cons_append]
    show run (step st e).1 (rest ++ l2) = _
    rw [ih]
    rfl

theorem joinedRoomIn_snoc (l : List Ev) (e : Ev) (s r : String) :
    joinedRoomIn (l ++ [e]) s r =
      (joinedRoomIn l s r ||
        (match e with
         | Ev.joinRoom s' r' _ => s' = s && r' = r
         | _ => false)) := by
  simp [joinedRoomIn, List.any_append]

theorem disconnectedIn_snoc (l : List Ev) (e : Ev) (s : String) :
    disconnectedIn (l ++ [e]) s = (disconnectedIn l s || isDiscOf s e) := by
  simp [disconnectedIn, List.any_append]

theorem joinedRoomIn_exists (l : List Ev) (s r : String) :
    joinedRoomIn l s r = true ↔ ∃ u, Ev.joinRoom s r u ∈ l := by
  unfold joinedRoomIn
  rw [List.any_eq_true]
  constructor
  · rintro ⟨e, he, hmatch⟩
    cases e with
    | joinRoom s' r' u' =>
      simp only [Bool.and_eq_true, decide_eq_true_eq] at hmatch
      obtain ⟨h1, h2⟩ := hmatch
      subst h1
      subst h2
      exact ⟨u', he⟩
    | connect sid => simp at hmatch
    | offerEv a b c => simp at hmatch
    | answerEv a b c => simp at hmatch
    | iceEv a b c => simp at hmatch
    | chatEv a b c d => simp at hmatch
    | toggleAudioEv a b c => simp at hmatch
    | toggleVideoEv a b c => simp at hmatch
    | disconnectEv a => simp at hmatch
  · rintro ⟨u, hu⟩
    exact ⟨Ev.joinRoom s r u, hu, by simp⟩

theorem oneRoomPerSock_of_snoc (l : List Ev) (e : Ev) (h : oneRoomPerSock (l ++ [e])) :
    oneRoomPerSock l :=
  fun a ha b hb => h a (List.mem_append_left _ ha) b (List.mem_append_left _ hb)

theorem oneRoomPerSock_last_join (l : List Ev) (sid rid : String) (u : Option String)
    (h : oneRoomPerSock (l ++ [Ev.joinRoom sid rid u])) :
    ∀ r' u', Ev.joinRoom sid r' u' ∈ l → r' = rid := by
  intro r' u' hmem
  have hc := h (Ev.joinRoom sid r' u') (List.mem_append_left _ hmem)
    (Ev.joinRoom sid rid u) (List.mem_append_right _ (List.mem_singleton.mpr rfl))
  simpa [joinCompat] using hc

theorem noJoinAfterDisc_snoc (l : List Ev) (e : Ev) (h : noJoinAfterDisc (l ++ [e]) = true) :
    noJoinAfterDisc l = true ∧
      (∀ sid rid u, e = Ev.joinRoom sid rid u → disconnectedIn l sid = false) := by
  induction l with
  | nil =>
    refine ⟨rfl, fun sid rid u _ => rfl⟩
  | cons a rest ih =>
    cases a with
    | disconnectEv s =>
      rw [List.cons_append] at h
      unfold noJoinAfterDisc at h
      rw [Bool.and_eq_true, List.all_append, Bool.and_eq_true] at h
      obtain ⟨⟨hall, hone⟩, hrest⟩ := h
      obtain ⟨ih1, ih2⟩ := ih hrest
      constructor
      · unfold noJoinAfterDisc
        rw [Bool.and_eq_true]
        exact ⟨hall, ih1⟩
      · intro sid rid u heq
        subst heq
        simp only [List.all_cons, List.all_nil, Bool.and_true, isJoinOf,
          Bool.not_eq_eq_eq_not, Bool.not_true, decide_eq_false_iff_not] at hone
        unfold disconnectedIn
        rw [List.any_cons, Bool.or_eq_false_iff]
        constructor
        · simp only [isDiscOf, decide_eq_false_iff_not]
          intro he
          exact hone he.symm
        · exact ih2 sid rid u rfl
    | connect sid =>
      rw [List.cons_append] at h
      unfold noJoinAfterDisc at h
      obtain ⟨ih1, ih2⟩ := ih h
      refine ⟨ih1, fun s r u heq => ?_⟩
      have := ih2 s r u heq
      unfold disconnectedIn at this ⊢
      rw [List.any_cons]
      simpa [isDiscOf] using this
    | joinRoom a b c =>
      rw [List.cons_append] at h
      unfold noJoinAfterDisc at h
      obtain ⟨ih1, ih2⟩ := ih h
      refine ⟨ih1, fun s r u heq => ?_⟩
      have := ih2 s r u heq
      unfold disconnectedIn at this ⊢
      rw [List.any_cons]
      simpa [isDiscOf] using this
    | offerEv a b c =>
      rw [List.cons_append] at h
      unfold noJoinAfterDisc at h
      obtain ⟨ih1, ih2⟩ := ih h
      refine ⟨ih1, fun s r u heq => ?_⟩
      have := ih2 s r u heq
      unfold disconnectedIn at this ⊢
      rw [List.any_cons]
      simpa [isDiscOf] using this
    | answerEv a b c =>
      rw [List.cons_append] at h
      unfold noJoinAfterDisc at h
      obtain ⟨ih1, ih2⟩ := ih h
      refine ⟨ih1, fun s r u heq => ?_⟩
      have := ih2 s r u heq
      unfold disconnectedIn at this ⊢
      rw [List.any_cons]
      simpa [isDiscOf] using this
    | iceEv a b c =>
      rw [List.cons_append] at h
      unfold noJoinAfterDisc at h
      obtain ⟨ih1, ih2⟩ := ih h
      refine ⟨ih1, fun s r u heq => ?_⟩
      have := ih2 s r u heq
      unfold disconnectedIn at this ⊢
      rw [List.any_cons]
      simpa [isDiscOf] using this
    | chatEv a b c d =>
      rw [List.cons_append] at h
      unfold noJoinAfterDisc at h
      obtain ⟨ih1, ih2⟩ := ih h
      refine ⟨ih1, fun s r u heq => ?_⟩
      have := ih2 s r u heq
      unfold disconnectedIn at this ⊢
      rw [List.any_cons]
      simpa [isDiscOf] using this
    | toggleAudioEv a b c =>
      rw [List.cons_append] at h
      unfold noJoinAfterDisc at h
      obtain ⟨ih1, ih2⟩ := ih h
      refine ⟨ih1, fun s r u heq => ?_⟩
      have := ih2 s r u heq
      unfold disconnectedIn at this ⊢
      rw [List.any_cons]
      simpa [isDiscOf] using this
    | toggleVideoEv a b c =>
      rw [List.cons_append] at h
      unfold noJoinAfterDisc at h
      obtain ⟨ih1, ih2⟩ := ih h
      refine ⟨ih1, fun s r u heq => ?_⟩
      have := ih2 s r u heq
      unfold disconnectedIn at this ⊢
      rw [List.any_cons]
      simpa [isDiscOf] using this

theorem mapGet_append_single {α β : Type} [DecidableEq α] (l : List (α × β)) (k x : α) (v : β) :
    mapGet (l ++ [(k, v)]) x =
      (match mapGet l x with
       | some w => some w
       | none => if k = x then some v else none) := by
  induction l with
  | nil => rfl
  | cons a rest ih =>
    obtain ⟨ka, va⟩ := a
    by_cases h : ka = x <;> simp [mapGet, h, ih]

theorem connectSock_rooms (st : ServerState) (sid : String) :
    (connectSock st sid).rooms = st.rooms := by
  unfold connectSock
  split <;> rfl

theorem sockRoom_connectSock (st : ServerState) (sid s : String) :
    ((mapGet (connectSock st sid).sockets s).getD {}).roomId =
      ((mapGet st.sockets s).getD {}).roomId := by
  unfold connectSock
  split
  · rfl
  · show ((mapGet (st.sockets ++ [(sid, (⟨none, none, []⟩ : Sock))]) s).getD
      (⟨none, none, []⟩ : Sock)).roomId = ((mapGet st.sockets s).getD
      (⟨none, none, []⟩ : Sock)).roomId
    rw [mapGet_append_single]
    cases hm : mapGet st.sockets s with
    | some w => rfl
    | none =>
      by_cases hk : sid = s <;> simp [hk]

theorem memberIds_handleJoinRoom (st : ServerState) (sid roomId : String)
    (username : Option String) (r s : String) :
    (s ∈ memberIds (handleJoinRoom st sid roomId username).1 r ↔
      (s ∈ memberIds st r ∨ (r = roomId ∧ s = sid))) := by
  show (s ∈ ((mapGet (mapSet st.rooms roomId _) r).getD []).map Prod.fst ↔ _)
  by_cases hr : r = roomId
  · subst hr
    rw [mapGet_mapSet_self]
    simp only [Option.getD_some]
    rw [mem_keys_mapSet]
    unfold memberIds
    cases hm : mapGet st.rooms r with
    | none => simp [hm]
    | some room => simp [hm]
  · rw [mapGet_mapSet_ne _ _ _ _ hr]
    unfold memberIds
    simp [hr]

theorem sockRoom_handleJoinRoom (st : ServerState) (sid roomId : String)
    (username : Option String) (s : String) :
    ((mapGet (handleJoinRoom st sid roomId username).1.sockets s).getD {}).roomId =
      (if s = sid then some roomId else ((mapGet st.sockets s).getD {}).roomId) := by
  show ((mapGet (mapSet (mapSet st.sockets sid _) sid _) s).getD {}).roomId = _
  by_cases hs : s = sid
  · subst hs
    rw [mapGet_mapSet_self]
    simp
  · rw [mapGet_mapSet_ne _ _ _ _ hs, mapGet_mapSet_ne _ _ _ _ hs]
    simp [hs]

theorem memberIds_handleDisconnect (st : ServerState) (sid : String) (hg : goodState st)
    (r s : String) :
    (s ∈ memberIds (handleDisconnect st sid).1 r ↔
      (s ∈ memberIds st r ∧
        ¬(s = sid ∧ ((mapGet st.sockets sid).getD {}).roomId = some r))) := by
  obtain ⟨h1, h2, h3⟩ := hg
  cases hro : ((mapGet st.sockets sid).getD {}).roomId with
  | none =>
    simp only [handleDisconnect, hro]
    simp [memberIds]
  | some rid =>
    by_cases hr : r = rid
    · subst hr
      cases hm : mapGet st.rooms r with
      | none =>
        simp only [handleDisconnect, hro, hm]
        unfold memberIds
        simp [hm]
      | some room =>
        have hroomnd : (room.map Prod.fst).Nodup := (h3 _ (mapGet_mem _ _ _ hm)).2
        by_cases hemp : (mapDelete room sid).isEmpty
        · have hnil : mapDelete room sid = [] := by simpa using hemp
          have hkeys := mapDelete_keys_subset_of_nil room sid hnil
          simp only [handleDisconnect, hro, hm, hemp, if_true]
          unfold memberIds
          simp only [mapGet_mapDelete_self st.rooms r h2, hm, Option.getD_none,
            Option.getD_some, List.map_nil, List.not_mem_nil, false_iff]
          rintro ⟨hs, hne⟩
          rcases List.mem_map.mp hs with ⟨e, he, hk⟩
          exact hne ⟨hk ▸ hkeys e he, by simp⟩
        · simp only [handleDisconnect, hro, hm, hemp, Bool.false_eq_true, if_false]
          unfold memberIds
          simp only [mapGet_mapSet_self, hm, Option.getD_some]
          rw [mem_keys_mapDelete room sid s hroomnd]
          constructor
          · rintro ⟨hs, hne⟩
            exact ⟨hs, fun hc => hne hc.1⟩
          · rintro ⟨hs, hne⟩
            exact ⟨hs, fun he => hne ⟨he, by simp⟩⟩
    · have hrooms : mapGet (handleDisconnect st sid).1.rooms r = mapGet st.rooms r := by
        cases hm : mapGet st.rooms rid with
        | none =>
          simp only [handleDisconnect, hro, hm]
        | some room =>
          by_cases hemp : (mapDelete room sid).isEmpty
          · simp only [handleDisconnect, hro, hm, hemp, if_true]
            exact mapGet_mapDelete_ne _ _ _ hr
          · simp only [handleDisconnect, hro, hm, hemp, Bool.false_eq_true, if_false]
            exact mapGet_mapSet_ne _ _ _ _ hr
      unfold memberIds
      rw [hrooms]
      simp only [iff_self_and]
      intro _
      rintro ⟨_, hc⟩
      exact hr (Option.some_injective _ hc).symm

theorem sockRoom_handleDisconnect (st : ServerState) (sid : String)
    (hnd : (st.sockets.map Prod.fst).Nodup) (s : String) :
    ((mapGet (handleDisconnect st sid).1.sockets s).getD {}).roomId =
      (if s = sid then none else ((mapGet st.sockets s).getD {}).roomId) := by
  have hsock : (handleDisconnect st sid).1.sockets = mapDelete st.sockets sid := by
    cases hro : ((mapGet st.sockets sid).getD {}).roomId with
    | none =>
      simp only [handleDisconnect, hro]
    | some rid =>
      simp only [handleDisconnect, hro]
  rw [hsock]
  by_cases hs : s = sid
  · subst hs
    rw [mapGet_mapDelete_self _ _ hnd]
    simp
  · rw [mapGet_mapDelete_ne _ _ _ hs]
    simp [hs]

theorem step_fst_of_relay (st : ServerState) (e : Ev)
    (he : match e with
          | Ev.connect _ => False
          | Ev.joinRoom _ _ _ => False
          | Ev.disconnectEv _ => False
          | _ => True) :
    (step st e).1 = st := by
  cases e <;> first | rfl | cases he

theorem registry_history_inv (evs : List Ev) :
    oneRoomPerSock evs → noJoinAfterDisc evs = true →
    ((∀ s r, s ∈ memberIds (run initialServer evs) r ↔
        (joinedRoomIn evs s r = true ∧ disconnectedIn evs s = false)) ∧
      (∀ s r, (((mapGet (run initialServer evs).sockets s).getD {}).roomId = some r) ↔
        (joinedRoomIn evs s r = true ∧ disconnectedIn evs s = false))) := by
  induction evs using List.reverseRecOn with
  | nil =>
    intro _ _
    constructor
    · intro s r
      simp [run, initialServer, memberIds, mapGet, joinedRoomIn]
    · intro s r
      simp [run, initialServer, mapGet, joinedRoomIn]
  | append_singleton l e ih =>
    intro h1 h2
    obtain ⟨hl2, hjoin⟩ := noJoinAfterDisc_snoc l e h2
    have hl1 := oneRoomPerSock_of_snoc l e h1
    obtain ⟨ihA, ihB⟩ := ih hl1 hl2
    have hg := goodState_run initialServer l goodState_initial
    rw [run_append]
    cases e with
    | connect sid =>
      constructor
      · intro s r
        rw [joinedRoomIn_snoc, disconnectedIn_snoc]
        show s ∈ memberIds (connectSock (run initialServer l) sid) r ↔ _
        have hm : memberIds (connectSock (run initialServer l) sid) r
            = memberIds (run initialServer l) r := by
          unfold memberIds
          rw [connectSock_rooms]
        rw [hm]
        simpa [isDiscOf] using ihA s r
      · intro s r
        rw [joinedRoomIn_snoc, disconnectedIn_snoc]
        show ((mapGet (connectSock (run initialServer l) sid).sockets s).getD {}).roomId
            = some r ↔ _
        rw [sockRoom_connectSock]
        simpa [isDiscOf] using ihB s r
    | joinRoom sid rid u =>
      have hdisc : disconnectedIn l sid = false := hjoin sid rid u rfl
      have hsame' : ∀ r', joinedRoomIn l sid r' = true → r' = rid := by
        intro r' hj
        rcases (joinedRoomIn_exists l sid r').mp hj with ⟨u', hu'⟩
        exact oneRoomPerSock_last_join l sid rid u h1 r' u' hu'
      constructor
      · intro s r
        rw [joinedRoomIn_snoc, disconnectedIn_snoc]
        show s ∈ memberIds (handleJoinRoom (run initialServer l) sid rid u).1 r ↔ _
        rw [memberIds_handleJoinRoom]
        simp only [isDiscOf, Bool.or_false, Bool.or_eq_true, Bool.and_eq_true,
          decide_eq_true_eq]
        constructor
        · rintro (hmem | ⟨hr, hs⟩)
          · obtain ⟨hj, hd⟩ := (ihA s r).mp hmem
            exact ⟨Or.inl hj, hd⟩
          · subst hs
            exact ⟨Or.inr ⟨rfl, hr.symm⟩, hdisc⟩
        · rintro ⟨hj | ⟨hs, hr⟩, hd⟩
          · exact Or.inl ((ihA s r).mpr ⟨hj, hd⟩)
          · exact Or.inr ⟨hr.symm, hs.symm⟩
      · intro s r
        rw [joinedRoomIn_snoc, disconnectedIn_snoc]
        show ((mapGet (handleJoinRoom (run initialServer l) sid rid u).1.sockets s).getD
            {}).roomId = some r ↔ _
        rw [sockRoom_handleJoinRoom]
        by_cases hs : s = sid
        · subst hs
          rw [if_pos rfl]
          simp only [isDiscOf, Bool.or_false, Bool.or_eq_true, Bool.and_eq_true,
            decide_eq_true_eq, Option.some_inj, eq_self_iff_true, true_and]
          constructor
          · intro hr
            exact ⟨Or.inr hr, hdisc⟩
          · rintro ⟨hj | hr, _⟩
            · exact (hsame' r hj).symm
            · exact hr
        · rw [if_neg hs]
          simp only [isDiscOf, Bool.or_false, Bool.or_eq_true, Bool.and_eq_true,
            decide_eq_true_eq]
          constructor
          · intro hsome
            obtain ⟨hj, hd⟩ := (ihB s r).mp hsome
            exact ⟨Or.inl hj, hd⟩
          · rintro ⟨hj | ⟨hs', _⟩, hd⟩
            · exact (ihB s r).mpr ⟨hj, hd⟩
            · exact absurd hs'.symm hs
    | disconnectEv sid =>
      constructor
      · intro s r
        rw [joinedRoomIn_snoc, disconnectedIn_snoc]
        show s ∈ memberIds (handleDisconnect (run initialServer l) sid).1 r ↔ _
        rw [memberIds_handleDisconnect (run initialServer l) sid hg]
        simp only [isDiscOf, Bool.or_false, Bool.or_eq_false_iff,
          decide_eq_false_iff_not]
        constructor
        · rintro ⟨hmem, hnot⟩
          obtain ⟨hj, hd⟩ := (ihA s r).mp hmem
          refine ⟨hj, hd, fun he => ?_⟩
          subst he
          exact hnot ⟨rfl, (ihB sid r).mpr ⟨hj, hd⟩⟩
        · rintro ⟨hj, hd, hne⟩
          refine ⟨(ihA s r).mpr ⟨hj, hd⟩, ?_⟩
          rintro ⟨hs, _⟩
          exact hne hs.symm
      · intro s r
        rw [joinedRoomIn_snoc, disconnectedIn_snoc]
        show ((mapGet (handleDisconnect (run initialServer l) sid).1.sockets s).getD
            {}).roomId = some r ↔ _
        rw [sockRoom_handleDisconnect (run initialServer l) sid hg.1]
        simp only [isDiscOf, Bool.or_false, Bool.or_eq_false_iff,
          decide_eq_false_iff_not]
        by_cases hs : s = sid
        · subst hs
          rw [if_pos rfl]
          constructor
          · intro hnone
            exact Option.noConfusion hnone
          · rintro ⟨_, _, hne⟩
            exact absurd (by trivial) hne
        · rw [if_neg hs]
          constructor
          · intro hsome
            obtain ⟨hj, hd⟩ := (ihB s r).mp hsome
            exact ⟨hj, hd, fun he => hs he.symm⟩
          · rintro ⟨hj, hd, _⟩
            exact (ihB s r).mpr ⟨hj, hd⟩
    | offerEv a b c =>
      exact ⟨fun s r => by
          rw [joinedRoomIn_snoc, disconnectedIn_snoc]
          simpa [isDiscOf] using ihA s r,
        fun s r => by
          rw [joinedRoomIn_snoc, disconnectedIn_snoc]
          simpa [isDiscOf] using ihB s r⟩
    | answerEv a b c =>
      exact ⟨fun s r => by
          rw [joinedRoomIn_snoc, disconnectedIn_snoc]
          simpa [isDiscOf] using ihA s r,
        fun s r => by
          rw [joinedRoomIn_snoc, disconnectedIn_snoc]
          simpa [isDiscOf] using ihB s r⟩
    | iceEv a b c =>
      exact ⟨fun s r => by
          rw [joinedRoomIn_snoc, disconnectedIn_snoc]
          simpa [isDiscOf] using ihA s r,
        fun s r => by
          rw [joinedRoomIn_snoc, disconnectedIn_snoc]
          simpa [isDiscOf] using ihB s r⟩
    | chatEv a b c d =>
      exact ⟨fun s r => by
          rw [joinedRoomIn_snoc, disconnectedIn_snoc]
          simpa [isDiscOf] using ihA s r,
        fun s r => by
          rw [joinedRoomIn_snoc, disconnectedIn_snoc]
          simpa [isDiscOf] using ihB s r⟩
    | toggleAudioEv a b c =>
      exact ⟨fun s r => by
          rw [joinedRoomIn_snoc, disconnectedIn_snoc]
          simpa [isDiscOf] using ihA s r,
        fun s r => by
          rw [joinedRoomIn_snoc, disconnectedIn_snoc]
          simpa [isDiscOf] using ihB s r⟩
    | toggleVideoEv a b c =>
      exact ⟨fun s r => by
          rw [joinedRoomIn_snoc, disconnectedIn_snoc]
          simpa [isDiscOf] using ihA s r,
        fun s r => by
          rw [joinedRoomIn_snoc, disconnectedIn_snoc]
          simpa [isDiscOf] using ihB s r⟩

/-- C4 counterexample: a connection that joins room "a", then joins room "b",
and then disconnects leaves a stale registry entry: it is still recorded as a
member of room "a" although it has disconnected (the disconnect handler only
deletes the socket from its most recently stored room), so the member set does
not equal the set of participants who joined and have not yet disconnected. -/
theorem c4_counterexample :
    "s" ∈ memberIds (run initialServer [Ev.connect "s", Ev.joinRoom "s" "a" (some "u"),
        Ev.joinRoom "s" "b" (some "u"), Ev.disconnectEv "s"]) "a" ∧
    disconnectedIn [Ev.connect "s", Ev.joinRoom "s" "a" (some "u"),
        Ev.joinRoom "s" "b" (some "u"), Ev.disconnectEv "s"] "s" = true := by
  refine ⟨by decide, by decide⟩

/-- C4 amended: for event histories in which every connection's join-room
events all target a single room (as the shipped client does: it joins exactly
once per connection) and no join of a connection occurs after its disconnect
(socket.io guarantees this), the member set recorded for each room is exactly
the set of connection ids that joined that room and have not yet
disconnected. -/
theorem c4_amended_membership_exact (evs : List Ev) (h1 : oneRoomPerSock evs)
    (h2 : noJoinAfterDisc evs = true) (s r : String) :
    s ∈ memberIds (run initialServer evs) r ↔
      (joinedRoomIn evs s r = true ∧ disconnectedIn evs s = false) :=
  (registry_history_inv evs h1 h2).1 s r

/-- Witness for the amended C4 at a concrete history: after "a" and "b" join
room "r" and "a" disconnects, "b" is a member and "a" is not. -/
theorem c4_amended_membership_exact_witness :
    oneRoomPerSock [Ev.connect "a", Ev.joinRoom "a" "r" (some "al"), Ev.connect "b",
        Ev.joinRoom "b" "r" (some "bo"), Ev.disconnectEv "a"] ∧
    noJoinAfterDisc [Ev.connect "a", Ev.joinRoom "a" "r" (some "al"), Ev.connect "b",
        Ev.joinRoom "b" "r" (some "bo"), Ev.disconnectEv "a"] = true ∧
    ("b" ∈ memberIds (run initialServer [Ev.connect "a", Ev.joinRoom "a" "r" (some "al"),
        Ev.connect "b", Ev.joinRoom "b" "r" (some "bo"), Ev.disconnectEv "a"]) "r" ↔
      (joinedRoomIn [Ev.connect "a", Ev.joinRoom "a" "r" (some "al"), Ev.connect "b",
          Ev.joinRoom "b" "r" (some "bo"), Ev.disconnectEv "a"] "b" "r" = true ∧
        disconnectedIn [Ev.connect "a", Ev.joinRoom "a" "r" (some "al"), Ev.connect "b",
          Ev.joinRoom "b" "r" (some "bo"), Ev.disconnectEv "a"] "b" = false)) :=
  ⟨by decide, by decide,
    c4_amended_membership_exact [Ev.connect "a", Ev.joinRoom "a" "r" (some "al"),
      Ev.connect "b", Ev.joinRoom "b" "r" (some "bo"), Ev.disconnectEv "a"]
      (by decide) (by decide) "b" "r"⟩

end WebConf
